import Mathlib

/-!
Shallow embedding of the permission-resolution core of the optometry
backend (Models/User.js, Models/Permission.js, Models/Shop.js,
controllers/permissionController.js, middleware/permissions.js).

JavaScript objects and Mongoose `Map` fields with string keys are
embedded as association lists `List (String × α)`; property read is
first-match lookup (`getK`) and property write is in-place update of the
first matching key, appending when absent (`setKey`), which matches JS
object/Map semantics where keys are unique and insertion order is kept.
A capability sub-document (`{view, create, ...}` booleans) is a
`CapMap`; only the fields actually set are present, so a missing field
models JS `undefined`.  The document store is a plain list of records;
`findOne` is first match in natural order.
-/

/-- JS object property read: value at the first matching key. -/
def getK : List (String × α) → String → Option α
  | [], _ => none
  | (k, v) :: rest, key => if k == key then some v else getK rest key

/-- JS object property write: replace the first binding of `key`
in place, or append a new binding when `key` is absent. -/
def setKey : List (String × α) → String → α → List (String × α)
  | [], key, v => [(key, v)]
  | (k, w) :: rest, key, v =>
    if k == key then (key, v) :: rest else (k, w) :: setKey rest key v

/-- One capability sub-document: action name ↦ boolean flag.
Absent actions model JS `undefined`. -/
abbrev CapMap := List (String × Bool)

/-- A permissions map: module name ↦ capability sub-document. -/
abbrev PermMap := List (String × CapMap)

/-- `[...new Set([...a, ...b])]`: concatenation with duplicates removed,
keeping the first occurrence of each element (JS `Set` insertion order).
`seen` accumulates the elements already emitted. -/
def jsDedupAux : List String → List String → List String
  | [], _ => []
  | x :: xs, seen =>
    if seen.contains x then jsDedupAux xs seen
    else x :: jsDedupAux xs (x :: seen)

/-- Duplicate-free list keeping first occurrences, as built by
`[...new Set(l)]` in JS. -/
def jsDedup (l : List String) : List String := jsDedupAux l []

/-- A `Permission` document (Models/Permission.js): one record per
(shop, role) holding the role-default capability matrix and page list.
Shops and users are identified by numeric ids standing in for ObjectIds. -/
structure PermissionRecord where
  shop : Nat
  role : String
  permissions : PermMap
  pageAccess : List String
  isActive : Bool
  createdBy : Nat
deriving DecidableEq

/-- A `User` document (Models/User.js), restricted to the fields the
permission layer reads: role, optional shop binding, and the per-account
`permissions` / `accessiblePages` overrides (Mongoose defaults `{}` and
`[]` are the empty list). -/
structure User where
  role : String
  shop : Option Nat
  permissions : PermMap
  accessiblePages : List String
deriving DecidableEq

/-- Result shape of `userSchema.methods.getPermissions`. -/
structure ResolvedPermissions where
  permissions : PermMap
  accessiblePages : List String
  role : String
deriving DecidableEq

/-- `Permission.findOne({shop, role, isActive: true})` as issued by
User.js.  When the user has no shop the filter value is `undefined`, and
Mongoose strips undefined values from query filters, so the shop
condition disappears from the query. -/
def findRolePermission (db : List PermissionRecord) (shop : Option Nat)
    (role : String) : Option PermissionRecord :=
  db.find? (fun p =>
    (match shop with
     | some s => p.shop == s
     | none => true) && p.role == role && p.isActive)

/-- `permissionSchema.statics.getAvailablePages` (Models/Permission.js). -/
def getAvailablePages : List String :=
  ["dashboard", "customers", "records", "appointments", "billing",
   "inventory", "reports", "settings", "users", "permissions",
   "analytics", "notifications", "help"]

/-- `permissionSchema.statics.getAvailableActions` (Models/Permission.js). -/
def getAvailableActions : List String :=
  ["view", "create", "edit", "delete", "export", "import", "manage"]

/-- The all-true permission grid built for admins inside
`getPermissions`: every available page mapped to every available action
set to `true`. -/
def adminAllPermissions : PermMap :=
  getAvailablePages.map (fun page =>
    (page, getAvailableActions.map (fun action => (action, true))))

/-- `userSchema.methods.hasPermission(module, action)` (Models/User.js
lines 119–141): admin short-circuit; else, when the account override map
has an entry for the module, decide from that entry alone; else fall
back to the active role record of the user's shop; absent anything,
deny. -/
def hasPermission (db : List PermissionRecord) (u : User)
    (module action : String) : Bool :=
  if u.role == "admin" then true
  else
    match getK u.permissions module with
    | some caps => getK caps action == some true
    | none =>
      match u.shop with
      | none => false
      | some _ =>
        match findRolePermission db u.shop u.role with
        | none => false
        | some p =>
          match getK p.permissions module with
          | some caps => getK caps action == some true
          | none => false

/-- `userSchema.methods.canAccessPage(page)` (Models/User.js lines
144–166): admin short-circuit; else, when the account's
`accessiblePages` override is non-empty, decide from it alone; else fall
back to the active role record's `pageAccess`; absent anything, deny. -/
def canAccessPage (db : List PermissionRecord) (u : User)
    (page : String) : Bool :=
  if u.role == "admin" then true
  else if u.accessiblePages.length > 0 then u.accessiblePages.contains page
  else
    match u.shop with
    | none => false
    | some _ =>
      match findRolePermission db u.shop u.role with
      | none => false
      | some p => p.pageAccess.contains page

/-- The field-level merge loop of `getPermissions`: for every action key
present (defined) in the override sub-document, overwrite that flag in
the base sub-document. -/
def mergeCaps (base : CapMap) (ov : CapMap) : CapMap :=
  ov.foldl (fun acc e => setKey acc e.1 e.2) base

/-- The module-level merge loop of `getPermissions`: for each module in
the account's override map, create the module entry if absent
(`if (!permissions[key]) permissions[key] = {}`) and merge its defined
action flags field by field. -/
def applyOverrides (base : PermMap) (ov : PermMap) : PermMap :=
  ov.foldl (fun acc e =>
    setKey acc e.1 (mergeCaps ((getK acc e.1).getD []) e.2)) base

/-- The role-default permissions copied by `getPermissions`: the active
role record's map, or empty when no record exists (fail-closed). -/
def rolePermsOf (db : List PermissionRecord) (u : User) : PermMap :=
  match findRolePermission db u.shop u.role with
  | some p => p.permissions
  | none => []

/-- The role-default page list copied by `getPermissions`: the active
role record's `pageAccess`, or empty when no record exists. -/
def rolePagesOf (db : List PermissionRecord) (u : User) : List String :=
  match findRolePermission db u.shop u.role with
  | some p => p.pageAccess
  | none => []

/-- `userSchema.methods.getPermissions` (Models/User.js lines 169–232):
admins get the full grid over all available pages and actions;
otherwise the active role record's maps are copied, account overrides
are merged field-by-field, and a non-empty `accessiblePages` override is
unioned (`[...new Set([...role, ...own])]`) with the role pages. -/
def getPermissions (db : List PermissionRecord) (u : User) :
    ResolvedPermissions :=
  if u.role == "admin" then
    { permissions := adminAllPermissions
      accessiblePages := getAvailablePages
      role := u.role }
  else
    { permissions := applyOverrides (rolePermsOf db u) u.permissions
      accessiblePages :=
        if u.accessiblePages.length > 0 then
          jsDedup (rolePagesOf db u ++ u.accessiblePages)
        else rolePagesOf db u
      role := u.role }

/-- Looking an (module, action) flag up in a resolved permissions map:
`permissions.get(module)?.[action]`. -/
def lookupAction (pm : PermMap) (module action : String) : Option Bool :=
  match getK pm module with
  | some caps => getK caps action
  | none => none

/-- The static default-permission table for the `admin` role
(Models/Permission.js, `getDefaultPermissions`). -/
def adminDefaults : PermMap :=
  [("dashboard", [("view", true), ("manage", true)]),
   ("customers", [("view", true), ("create", true), ("edit", true),
                  ("delete", true), ("export", true), ("import", true)]),
   ("records", [("view", true), ("create", true), ("edit", true),
                ("delete", true), ("export", true), ("import", true)]),
   ("appointments", [("view", true), ("create", true), ("edit", true),
                     ("delete", true), ("export", true)]),
   ("billing", [("view", true), ("create", true), ("edit", true),
                ("delete", true), ("export", true)]),
   ("inventory", [("view", true), ("create", true), ("edit", true),
                  ("delete", true), ("export", true), ("import", true)]),
   ("reports", [("view", true), ("create", true), ("export", true),
                ("manage", true)]),
   ("settings", [("view", true), ("edit", true), ("manage", true)]),
   ("users", [("view", true), ("create", true), ("edit", true),
              ("delete", true), ("manage", true)]),
   ("permissions", [("view", true), ("create", true), ("edit", true),
                    ("delete", true), ("manage", true)])]

/-- The static default-permission table for the `shop_owner` role
(Models/Permission.js): textually identical to the admin entry. -/
def shopOwnerDefaults : PermMap :=
  [("dashboard", [("view", true), ("manage", true)]),
   ("customers", [("view", true), ("create", true), ("edit", true),
                  ("delete", true), ("export", true), ("import", true)]),
   ("records", [("view", true), ("create", true), ("edit", true),
                ("delete", true), ("export", true), ("import", true)]),
   ("appointments", [("view", true), ("create", true), ("edit", true),
                     ("delete", true), ("export", true)]),
   ("billing", [("view", true), ("create", true), ("edit", true),
                ("delete", true), ("export", true)]),
   ("inventory", [("view", true), ("create", true), ("edit", true),
                  ("delete", true), ("export", true), ("import", true)]),
   ("reports", [("view", true), ("create", true), ("export", true),
                ("manage", true)]),
   ("settings", [("view", true), ("edit", true), ("manage", true)]),
   ("users", [("view", true), ("create", true), ("edit", true),
              ("delete", true), ("manage", true)]),
   ("permissions", [("view", true), ("create", true), ("edit", true),
                    ("delete", true), ("manage", true)])]

/-- The static default-permission table for the `optometrist` role. -/
def optometristDefaults : PermMap :=
  [("dashboard", [("view", true)]),
   ("customers", [("view", true), ("create", true), ("edit", true),
                  ("export", true)]),
   ("records", [("view", true), ("create", true), ("edit", true),
                ("export", true)]),
   ("appointments", [("view", true), ("create", true), ("edit", true)]),
   ("reports", [("view", true), ("export", true)])]

/-- The static default-permission table for the `assistant` role. -/
def assistantDefaults : PermMap :=
  [("dashboard", [("view", true)]),
   ("customers", [("view", true), ("create", true), ("edit", true)]),
   ("records", [("view", true), ("create", true)]),
   ("appointments", [("view", true), ("create", true), ("edit", true)])]

/-- The static default-permission table for the `receptionist` role. -/
def receptionistDefaults : PermMap :=
  [("dashboard", [("view", true)]),
   ("customers", [("view", true), ("create", true), ("edit", true)]),
   ("appointments", [("view", true), ("create", true), ("edit", true),
                     ("delete", true)])]

/-- `permissionSchema.statics.getDefaultPermissions(role)`
(Models/Permission.js lines 49–96): fixed table keyed by role, with
`defaults[role] || defaults.assistant` falling back to the assistant
entry for any unrecognized role. -/
def getDefaultPermissions (role : String) : PermMap :=
  if role == "admin" then adminDefaults
  else if role == "shop_owner" then shopOwnerDefaults
  else if role == "optometrist" then optometristDefaults
  else if role == "assistant" then assistantDefaults
  else if role == "receptionist" then receptionistDefaults
  else assistantDefaults

/-- `Permission.findOneAndUpdate({shop, role}, {permissions, pageAccess,
createdBy}, {upsert: true})`: update the first record matching the
(shop, role) filter in place — leaving its other fields, in particular
`isActive`, untouched — or insert a fresh record (schema default
`isActive: true`) when none matches. -/
def upsertPermission (db : List PermissionRecord) (s : Nat) (r : String)
    (pm : PermMap) (pa : List String) (cb : Nat) : List PermissionRecord :=
  match db with
  | [] => [{ shop := s, role := r, permissions := pm, pageAccess := pa,
             isActive := true, createdBy := cb }]
  | p :: rest =>
    if p.shop == s && p.role == r then
      { p with permissions := pm, pageAccess := pa, createdBy := cb } :: rest
    else p :: upsertPermission rest s r pm pa cb

/-- `User.updateMany({shop, role}, {$unset: {permissions: 1,
accessiblePages: 1}})` (permissionController.js): every user bound to
that shop with that role loses its override fields (reading the unset
fields yields the schema defaults `{}` / `[]`); all other users are left
as they are. -/
def clearUserOverrides (s : Nat) (r : String) (users : List User) :
    List User :=
  users.map (fun u =>
    if u.shop == some s && u.role == r then
      { u with permissions := [], accessiblePages := [] }
    else u)

/-- Joint state of the permission collection and the user collection. -/
structure St where
  perms : List PermissionRecord
  users : List User
deriving DecidableEq

/-- State change performed by a successful `updateRolePermissions`
(permissionController.js lines 42–96): upsert the (shop, role) record
with the caller-supplied maps, then clear the overrides of every user
with that shop and role. -/
def updateRolePermissions (st : St) (s : Nat) (r : String) (pm : PermMap)
    (pa : List String) (cb : Nat) : St :=
  { perms := upsertPermission st.perms s r pm pa cb
    users := clearUserOverrides s r st.users }

/-- State change performed by a successful `resetRolePermissions`
(permissionController.js lines 182–234): upsert the (shop, role) record
with the static default table entry for the role and that entry's keys
as `pageAccess`, then clear the overrides of every user with that shop
and role. -/
def resetRolePermissions (st : St) (s : Nat) (r : String) (cb : Nat) : St :=
  { perms := upsertPermission st.perms s r (getDefaultPermissions r)
               ((getDefaultPermissions r).map Prod.fst) cb
    users := clearUserOverrides s r st.users }

/-- `shopSchema.methods.initializePermissions` (Models/Shop.js lines
196–233): for each of the five roles in order, upsert the (shop, role)
record with the static default table entry and its keys as `pageAccess`,
`createdBy` set to the shop owner. -/
def initializePermissions (db : List PermissionRecord) (s : Nat)
    (owner : Nat) : List PermissionRecord :=
  ["admin", "shop_owner", "optometrist", "assistant", "receptionist"].foldl
    (fun acc r =>
      upsertPermission acc s r (getDefaultPermissions r)
        ((getDefaultPermissions r).map Prod.fst) owner)
    db

/-- The records of the permission collection whose (shop, role) pair is
the given one — the documents the unique compound index counts. -/
def recordsFor (db : List PermissionRecord) (s : Nat) (r : String) :
    List PermissionRecord :=
  db.filter (fun p => p.shop == s && p.role == r)

/-- First record matching the upsert filter `{shop, role}`. -/
def findShopRole (db : List PermissionRecord) (s : Nat) (r : String) :
    Option PermissionRecord :=
  db.find? (fun p => p.shop == s && p.role == r)

/-! ### Lookup and merge lemmas -/

theorem getK_setKey_self (l : List (String × α)) (k : String) (v : α) :
    getK (setKey l k v) k = some v := by
  induction l with
  | nil => simp [setKey, getK]
  | cons e rest ih =>
    obtain ⟨k', w⟩ := e
    cases hk : k' == k with
    | true => simp [setKey, hk, getK]
    | false => simp [setKey, hk, getK, ih]

theorem getK_setKey_ne (l : List (String × α)) (k key : String) (v : α)
    (h : k ≠ key) : getK (setKey l k v) key = getK l key := by
  induction l with
  | nil => simp [setKey, getK, beq_iff_eq, h]
  | cons e rest ih =>
    obtain ⟨k', w⟩ := e
    cases hk : k' == k with
    | true =>
      have : k' = k := eq_of_beq hk
      subst this
      simp [setKey, hk, getK, beq_iff_eq, h]
    | false => simp [setKey, hk, getK, ih]

theorem getK_eq_none_of_not_mem (l : List (String × α)) (a : String)
    (h : a ∉ l.map Prod.fst) : getK l a = none := by
  induction l with
  | nil => rfl
  | cons e rest ih =>
    obtain ⟨k, v⟩ := e
    simp only [List.map_cons, List.mem_cons, not_or] at h
    have hk : (k == a) = false := by
      simp [beq_iff_eq]
      exact fun hh => h.1 hh.symm
    simp [getK, hk, ih h.2]

theorem getK_mergeCaps_none (ov : CapMap) (base : CapMap) (a : String)
    (h : getK ov a = none) : getK (mergeCaps base ov) a = getK base a := by
  induction ov generalizing base with
  | nil => rfl
  | cons e tl ih =>
    obtain ⟨k, v⟩ := e
    cases hk : k == a with
    | true => simp [getK, hk] at h
    | false =>
      simp only [getK, hk, if_neg] at h
      have step : mergeCaps base ((k, v) :: tl) =
          mergeCaps (setKey base k v) tl := rfl
      rw [step, ih (setKey base k v) h,
        getK_setKey_ne base k a v (ne_of_beq_false hk)]

theorem getK_mergeCaps_some (ov : CapMap) (base : CapMap) (a : String)
    (b : Bool) (hnd : (ov.map Prod.fst).Nodup) (h : getK ov a = some b) :
    getK (mergeCaps base ov) a = some b := by
  induction ov generalizing base with
  | nil => simp [getK] at h
  | cons e tl ih =>
    obtain ⟨k, v⟩ := e
    simp only [List.map_cons, List.nodup_cons] at hnd
    have step : mergeCaps base ((k, v) :: tl) =
        mergeCaps (setKey base k v) tl := rfl
    cases hk : k == a with
    | true =>
      have hka : k = a := eq_of_beq hk
      have hv : v = b := by
        simp [getK, hk] at h
        exact h
      subst hka hv
      have htl : getK tl k = none := by
        apply getK_eq_none_of_not_mem
        exact hnd.1
      rw [step, getK_mergeCaps_none tl (setKey base k v) k htl,
        getK_setKey_self]
    | false =>
      simp only [getK, hk, if_neg] at h
      rw [step]
      exact ih (setKey base k v) hnd.2 h

theorem getK_applyOverrides_none (ov : PermMap) (base : PermMap)
    (m : String) (h : getK ov m = none) :
    getK (applyOverrides base ov) m = getK base m := by
  induction ov generalizing base with
  | nil => rfl
  | cons e tl ih =>
    obtain ⟨k, c⟩ := e
    cases hk : k == m with
    | true => simp [getK, hk] at h
    | false =>
      simp only [getK, hk, if_neg] at h
      have step : applyOverrides base ((k, c) :: tl) =
          applyOverrides (setKey base k (mergeCaps ((getK base k).getD []) c))
            tl := rfl
      rw [step, ih _ h, getK_setKey_ne _ k m _ (ne_of_beq_false hk)]

theorem getK_applyOverrides_some (ov : PermMap) (base : PermMap)
    (m : String) (c : CapMap) (hnd : (ov.map Prod.fst).Nodup)
    (h : getK ov m = some c) :
    getK (applyOverrides base ov) m =
      some (mergeCaps ((getK base m).getD []) c) := by
  induction ov generalizing base with
  | nil => simp [getK] at h
  | cons e tl ih =>
    obtain ⟨k, c'⟩ := e
    simp only [List.map_cons, List.nodup_cons] at hnd
    have step : applyOverrides base ((k, c') :: tl) =
        applyOverrides (setKey base k (mergeCaps ((getK base k).getD []) c'))
          tl := rfl
    cases hk : k == m with
    | true =>
      have hkm : k = m := eq_of_beq hk
      have hc : c' = c := by
        simp [getK, hk] at h
        exact h
      subst hkm hc
      have htl : getK tl k = none := by
        apply getK_eq_none_of_not_mem
        exact hnd.1
      rw [step, getK_applyOverrides_none tl _ k htl, getK_setKey_self]
    | false =>
      simp only [getK, hk, if_neg] at h
      rw [step, ih _ hnd.2 h,
        getK_setKey_ne _ k m _ (ne_of_beq_false hk)]

theorem mem_jsDedupAux (l : List String) (seen : List String) (a : String) :
    a ∈ jsDedupAux l seen ↔ a ∈ l ∧ a ∉ seen := by
  induction l generalizing seen with
  | nil => simp [jsDedupAux]
  | cons x xs ih =>
    by_cases hxs : x ∈ seen
    · have hx : seen.contains x = true := by simpa using hxs
      simp only [jsDedupAux, hx, if_pos, ih, List.mem_cons]
      constructor
      · rintro ⟨hm, hs⟩
        exact ⟨Or.inr hm, hs⟩
      · rintro ⟨hm, hs⟩
        rcases hm with rfl | hm
        · exact absurd hxs hs
        · exact ⟨hm, hs⟩
    · have hx : seen.contains x = false := by simpa using hxs
      simp only [jsDedupAux, hx, Bool.false_eq_true, if_false,
        List.mem_cons, ih]
      constructor
      · rintro (rfl | ⟨hm, hs⟩)
        · exact ⟨Or.inl rfl, hxs⟩
        · simp only [List.mem_cons, not_or] at hs
          exact ⟨Or.inr hm, hs.2⟩
      · rintro ⟨rfl | hm, hs⟩
        · exact Or.inl rfl
        · by_cases hax : a = x
          · exact Or.inl hax
          · exact Or.inr ⟨hm, by simp [hax, hs]⟩

theorem nodup_jsDedupAux (l : List String) (seen : List String) :
    (jsDedupAux l seen).Nodup := by
  induction l generalizing seen with
  | nil => simp [jsDedupAux]
  | cons x xs ih =>
    by_cases hxs : x ∈ seen
    · have hx : seen.contains x = true := by simpa using hxs
      simpa [jsDedupAux, hx, hxs] using ih seen
    · have hx : seen.contains x = false := by simpa using hxs
      simp only [jsDedupAux, hx, Bool.false_eq_true, if_false,
        List.nodup_cons]
      refine ⟨?_, ih (x :: seen)⟩
      intro hmem
      have := (mem_jsDedupAux xs (x :: seen) x).mp hmem
      simp at this

theorem mem_jsDedup (l : List String) (a : String) :
    a ∈ jsDedup l ↔ a ∈ l := by
  simpa [jsDedup] using mem_jsDedupAux l [] a

theorem nodup_jsDedup (l : List String) : (jsDedup l).Nodup :=
  nodup_jsDedupAux l []

theorem getK_map_self (l : List String) (f : String → α) (m : String)
    (h : m ∈ l) : getK (l.map (fun x => (x, f x))) m = some (f m) := by
  induction l with
  | nil => simp at h
  | cons x xs ih =>
    cases hx : x == m with
    | true =>
      have : x = m := eq_of_beq hx
      subst this
      simp [getK]
    | false =>
      have hxm : x ≠ m := ne_of_beq_false hx
      have hm : m ∈ xs := by
        rcases List.mem_cons.mp h with rfl | hm
        · exact absurd rfl hxm
        · exact hm
      simp [getK, hx, ih hm]

/-! ### Upsert and bulk-update lemmas -/

theorem upsertPermission_idem (db : List PermissionRecord) (s : Nat)
    (r : String) (pm : PermMap) (pa : List String) (cb : Nat) :
    upsertPermission (upsertPermission db s r pm pa cb) s r pm pa cb =
      upsertPermission db s r pm pa cb := by
  induction db with
  | nil => simp [upsertPermission]
  | cons p rest ih =>
    by_cases h : (p.shop == s && p.role == r) = true
    · simp [upsertPermission, h]
    · simp only [upsertPermission, h, Bool.false_eq_true, if_neg,
        if_false]
      simp [h, ih]

theorem clearUserOverrides_idem (s : Nat) (r : String) (us : List User) :
    clearUserOverrides s r (clearUserOverrides s r us) =
      clearUserOverrides s r us := by
  induction us with
  | nil => rfl
  | cons u rest ih =>
    simp only [clearUserOverrides, List.map_cons] at ih ⊢
    rw [ih]
    congr 1
    by_cases h : (u.shop == some s && u.role == r) = true
    · simp [h]
    · simp [h]

theorem findShopRole_upsert (db : List PermissionRecord) (s : Nat)
    (r : String) (pm : PermMap) (pa : List String) (cb : Nat) :
    ∃ b, findShopRole (upsertPermission db s r pm pa cb) s r =
      some { shop := s, role := r, permissions := pm, pageAccess := pa,
             isActive := b, createdBy := cb } := by
  induction db with
  | nil =>
    refine ⟨true, ?_⟩
    simp [upsertPermission, findShopRole]
  | cons p rest ih =>
    obtain ⟨ps, pr, ppm, ppa, pia, pcb⟩ := p
    by_cases h : (ps == s && pr == r) = true
    · have h' := h
      simp only [Bool.and_eq_true, beq_iff_eq] at h'
      obtain ⟨rfl, rfl⟩ := h'
      refine ⟨pia, ?_⟩
      simp [upsertPermission, findShopRole]
    · obtain ⟨b, hb⟩ := ih
      refine ⟨b, ?_⟩
      simp only [upsertPermission, h, Bool.false_eq_true, if_false]
      simpa [findShopRole, List.find?_cons, h] using hb

theorem recordsFor_upsert_ne (db : List PermissionRecord) (s : Nat)
    (r r' : String) (pm : PermMap) (pa : List String) (cb : Nat)
    (h : r' ≠ r) :
    recordsFor (upsertPermission db s r pm pa cb) s r' =
      recordsFor db s r' := by
  have hne : r ≠ r' := Ne.symm h
  induction db with
  | nil =>
    simp [upsertPermission, recordsFor, beq_iff_eq, hne]
  | cons p rest ih =>
    obtain ⟨ps, pr, ppm, ppa, pia, pcb⟩ := p
    by_cases hq : (ps == s && pr == r) = true
    · have hq' := hq
      simp only [Bool.and_eq_true, beq_iff_eq] at hq'
      obtain ⟨rfl, rfl⟩ := hq'
      simp [upsertPermission, hq, recordsFor, beq_iff_eq, hne]
    · simp only [upsertPermission, hq, Bool.false_eq_true, if_false]
      simp only [recordsFor, List.filter_cons] at ih ⊢
      rw [ih]

theorem recordsFor_upsert_self (db : List PermissionRecord) (s : Nat)
    (r : String) (pm : PermMap) (pa : List String) (cb : Nat)
    (h : (recordsFor db s r).length ≤ 1) :
    ∃ b, recordsFor (upsertPermission db s r pm pa cb) s r =
      [{ shop := s, role := r, permissions := pm, pageAccess := pa,
         isActive := b, createdBy := cb }] := by
  induction db with
  | nil =>
    refine ⟨true, ?_⟩
    simp [upsertPermission, recordsFor]
  | cons p rest ih =>
    obtain ⟨ps, pr, ppm, ppa, pia, pcb⟩ := p
    by_cases hq : (ps == s && pr == r) = true
    · have hq' := hq
      simp only [Bool.and_eq_true, beq_iff_eq] at hq'
      obtain ⟨rfl, rfl⟩ := hq'
      refine ⟨pia, ?_⟩
      have hrest : recordsFor rest ps pr = [] := by
        simp only [recordsFor, List.filter_cons, hq, if_pos,
          List.length_cons] at h
        have hlen : (List.filter
            (fun p => p.shop == ps && p.role == pr) rest).length = 0 := by
          omega
        simpa [recordsFor] using List.length_eq_zero.mp hlen
      simp only [upsertPermission, hq, if_pos]
      simp only [recordsFor] at hrest
      simp [recordsFor, List.filter_cons, hq, hrest]
    · simp only [upsertPermission, hq, Bool.false_eq_true, if_false]
      have hhead : (recordsFor
          (PermissionRecord.mk ps pr ppm ppa pia pcb :: rest) s r) =
          recordsFor rest s r := by
        simp [recordsFor, List.filter_cons, hq]
      obtain ⟨b, hb⟩ := ih (by rw [hhead] at h; exact h)
      refine ⟨b, ?_⟩
      simp only [recordsFor, List.filter_cons, hq, Bool.false_eq_true,
        if_false] at hb ⊢
      exact hb

theorem recordsFor_initFold_not_mem (rs : List String)
    (db : List PermissionRecord) (s owner : Nat) (r : String)
    (h : r ∉ rs) :
    recordsFor (rs.foldl (fun acc r' =>
        upsertPermission acc s r' (getDefaultPermissions r')
          ((getDefaultPermissions r').map Prod.fst) owner) db) s r =
      recordsFor db s r := by
  induction rs generalizing db with
  | nil => rfl
  | cons x xs ih =>
    simp only [List.foldl_cons]
    rw [ih _ (fun hm => h (List.mem_cons_of_mem x hm))]
    exact recordsFor_upsert_ne db s x r _ _ owner
      (fun he => h (he ▸ List.mem_cons_self x xs))

theorem recordsFor_initFold_mem (rs : List String)
    (db : List PermissionRecord) (s owner : Nat) (hnd : rs.Nodup)
    (hb : ∀ r' ∈ rs, (recordsFor db s r').length ≤ 1) :
    ∀ r ∈ rs, ∃ b,
      recordsFor (rs.foldl (fun acc r' =>
          upsertPermission acc s r' (getDefaultPermissions r')
            ((getDefaultPermissions r').map Prod.fst) owner) db) s r =
        [{ shop := s, role := r, permissions := getDefaultPermissions r,
           pageAccess := (getDefaultPermissions r).map Prod.fst,
           isActive := b, createdBy := owner }] := by
  induction rs generalizing db with
  | nil =>
    intro r hr
    simp at hr
  | cons x xs ih =>
    intro r hr
    simp only [List.foldl_cons]
    simp only [List.nodup_cons] at hnd
    rcases List.mem_cons.mp hr with rfl | hr'
    · obtain ⟨b, hbx⟩ := recordsFor_upsert_self db s r
        (getDefaultPermissions r) ((getDefaultPermissions r).map Prod.fst)
        owner (hb r (List.mem_cons_self r xs))
      refine ⟨b, ?_⟩
      rw [recordsFor_initFold_not_mem xs _ s owner r hnd.1, hbx]
    · refine ih _ hnd.2 ?_ r hr'
      intro r' hm
      have hrx : r' ≠ x := fun he => hnd.1 (he ▸ hm)
      rw [recordsFor_upsert_ne db s x r' (getDefaultPermissions x)
        ((getDefaultPermissions x).map Prod.fst) owner hrx]
      exact hb r' (List.mem_cons_of_mem x hm)

/-! ### Claim theorems -/

/-- Concrete permission collection for the C1 refutation: the
optometrist role record grants `customers.view`. -/
def exDbC1 : List PermissionRecord :=
  [{ shop := 0, role := "optometrist",
     permissions := [("customers", [("view", true)])],
     pageAccess := [], isActive := true, createdBy := 1 }]

/-- Concrete account for the C1 refutation: a per-account override for
the `customers` module that sets only `create`. -/
def exUserC1 : User :=
  { role := "optometrist", shop := some 0,
    permissions := [("customers", [("create", true)])],
    accessiblePages := [] }

/-- C1 counterexample: for this non-admin account the gate denies
`customers.view` — the override entry for `customers` hides the role
record entirely — while the resolver's field-level merge grants it, so
authorize(account, module, action) is NOT equivalent to membership in
the resolver's merged output. -/
theorem claim_C1_counterexample :
    exUserC1.role ≠ "admin" ∧
    hasPermission exDbC1 exUserC1 "customers" "view" = false ∧
    lookupAction (getPermissions exDbC1 exUserC1).permissions
      "customers" "view" = some true :=
  ⟨by decide, by decide, by decide⟩

/-- C1 (amended): for every non-admin account bound to a shop, the gate
agrees with the resolver's merged output exactly when the account has no
override entry for the module; when an override entry for the module
exists, the gate decides from that entry alone (its action flag must be
exactly `true`), ignoring the merged output. -/
theorem claim_C1_amended (db : List PermissionRecord) (u : User)
    (module action : String) (hrole : u.role ≠ "admin")
    (hshop : u.shop.isSome) :
    hasPermission db u module action =
      (match getK u.permissions module with
       | some caps => getK caps action == some true
       | none =>
         lookupAction (getPermissions db u).permissions module action ==
           some true) := by
  have hb : (u.role == "admin") = false := by
    simp [beq_iff_eq]
    exact hrole
  obtain ⟨s, hs⟩ := Option.isSome_iff_exists.mp hshop
  unfold hasPermission getPermissions
  rw [hb]
  simp only [Bool.false_eq_true, if_false]
  cases hov : getK u.permissions module with
  | some caps => rfl
  | none =>
    have hmerge : getK (applyOverrides (rolePermsOf db u) u.permissions)
        module = getK (rolePermsOf db u) module :=
      getK_applyOverrides_none _ _ _ hov
    simp only [lookupAction, hmerge]
    rw [hs]
    unfold rolePermsOf
    rw [hs]
    cases hfind : findRolePermission db (some s) u.role with
    | none => simp [getK]
    | some p =>
      cases hpm : getK p.permissions module with
      | none => simp [hpm]
      | some caps => simp [hpm]

/-- C1 witness: the amended equivalence evaluated at the concrete
counterexample account and a module/action where both sides agree. -/
theorem claim_C1_witness :
    (exUserC1.role ≠ "admin" ∧ exUserC1.shop.isSome) ∧
    hasPermission exDbC1 exUserC1 "customers" "create" =
      (match getK exUserC1.permissions "customers" with
       | some caps => getK caps "create" == some true
       | none =>
         lookupAction (getPermissions exDbC1 exUserC1).permissions
           "customers" "create" == some true) :=
  ⟨⟨by decide, by decide⟩,
   claim_C1_amended exDbC1 exUserC1 "customers" "create" (by decide)
     (by decide)⟩

/-- Concrete permission collection for the C2 refutation: the
optometrist role record grants the `dashboard` page. -/
def exDbC2 : List PermissionRecord :=
  [{ shop := 0, role := "optometrist", permissions := [],
     pageAccess := ["dashboard"], isActive := true, createdBy := 1 }]

/-- Concrete account for the C2 refutation: a non-empty per-account
`accessiblePages` override naming only `reports`. -/
def exUserC2 : User :=
  { role := "optometrist", shop := some 0, permissions := [],
    accessiblePages := ["reports"] }

/-- C2 counterexample: for this non-admin account the page gate denies
`dashboard` — the non-empty override list replaces the role pages
entirely — while the resolver's union contains `dashboard`, so
authorizePage is NOT equivalent to membership in the resolver's merged
accessible-pages set. -/
theorem claim_C2_counterexample :
    exUserC2.role ≠ "admin" ∧
    canAccessPage exDbC2 exUserC2 "dashboard" = false ∧
    "dashboard" ∈ (getPermissions exDbC2 exUserC2).accessiblePages :=
  ⟨by decide, by decide, by decide⟩

/-- C2 (amended): for every non-admin account bound to a shop, the page
gate agrees with membership in the resolver's merged accessible-pages
set exactly when the account's `accessiblePages` override is empty; a
non-empty override is consulted alone, ignoring the union. -/
theorem claim_C2_amended (db : List PermissionRecord) (u : User)
    (page : String) (hrole : u.role ≠ "admin") (hshop : u.shop.isSome) :
    canAccessPage db u page =
      if u.accessiblePages.length > 0 then u.accessiblePages.contains page
      else (getPermissions db u).accessiblePages.contains page := by
  have hb : (u.role == "admin") = false := by
    simp [beq_iff_eq]
    exact hrole
  obtain ⟨s, hs⟩ := Option.isSome_iff_exists.mp hshop
  unfold canAccessPage getPermissions
  rw [hb]
  simp only [Bool.false_eq_true, if_false]
  by_cases hlen : u.accessiblePages.length > 0
  · rw [if_pos hlen, if_pos hlen]
  · rw [if_neg hlen, if_neg hlen]
    simp only [if_neg hlen]
    rw [hs]
    unfold rolePagesOf
    rw [hs]
    cases hfind : findRolePermission db (some s) u.role with
    | none => simp
    | some p => rfl

/-- C2 witness: the amended equivalence evaluated at a concrete account
with an empty override, where the role record decides. -/
theorem claim_C2_witness :
    (exUserC1.role ≠ "admin" ∧ exUserC1.shop.isSome) ∧
    canAccessPage exDbC2 exUserC1 "dashboard" =
      (if exUserC1.accessiblePages.length > 0 then
        exUserC1.accessiblePages.contains "dashboard"
      else (getPermissions exDbC2 exUserC1).accessiblePages.contains
        "dashboard") :=
  ⟨⟨by decide, by decide⟩,
   claim_C2_amended exDbC2 exUserC1 "dashboard" (by decide) (by decide)⟩

/-- C3: for every account whose role is admin, the module/action gate
and the page gate always allow — whatever the permission collection and
the account overrides hold — and the resolver returns every known module
with every capability flag true plus the full set of known pages. -/
theorem claim_C3_admin_universal (db : List PermissionRecord) (u : User)
    (h : u.role = "admin") :
    (∀ module action, hasPermission db u module action = true) ∧
    (∀ page, canAccessPage db u page = true) ∧
    (∀ module ∈ getAvailablePages, ∀ action ∈ getAvailableActions,
      lookupAction (getPermissions db u).permissions module action =
        some true) ∧
    (getPermissions db u).accessiblePages = getAvailablePages := by
  have hb : (u.role == "admin") = true := by simp [beq_iff_eq, h]
  refine ⟨fun module action => by simp [hasPermission, hb],
    fun page => by simp [canAccessPage, hb], ?_,
    by simp [getPermissions, hb]⟩
  intro module hm action ha
  simp only [getPermissions, hb, if_pos]
  unfold lookupAction adminAllPermissions
  rw [getK_map_self getAvailablePages _ module hm]
  exact getK_map_self getAvailableActions _ action ha

/-- Concrete platform-admin account used to instantiate C3. -/
def exAdminUser : User :=
  { role := "admin", shop := none, permissions := [],
    accessiblePages := [] }

/-- C3 witness: the universal admin grant evaluated at a concrete
admin account against an empty permission collection. -/
theorem claim_C3_witness :
    exAdminUser.role = "admin" ∧
    ((∀ module action,
        hasPermission [] exAdminUser module action = true) ∧
     (∀ page, canAccessPage [] exAdminUser page = true) ∧
     (∀ module ∈ getAvailablePages, ∀ action ∈ getAvailableActions,
       lookupAction (getPermissions [] exAdminUser).permissions module
         action = some true) ∧
     (getPermissions [] exAdminUser).accessiblePages =
       getAvailablePages) :=
  ⟨rfl, claim_C3_admin_universal [] exAdminUser rfl⟩

/-- C4: a non-admin account whose lookup finds no active role record and
which carries no overrides resolves to an empty permissions map and an
empty page list, and every module/action and page check denies; all the
involved functions are total, so no error can be raised. -/
theorem claim_C4_fail_closed (db : List PermissionRecord) (u : User)
    (hrole : u.role ≠ "admin")
    (hrec : findRolePermission db u.shop u.role = none)
    (hperm : u.permissions = []) (hpages : u.accessiblePages = []) :
    getPermissions db u =
      { permissions := [], accessiblePages := [], role := u.role } ∧
    (∀ module action, hasPermission db u module action = false) ∧
    (∀ page, canAccessPage db u page = false) := by
  have hb : (u.role == "admin") = false := by
    simp [beq_iff_eq]
    exact hrole
  refine ⟨?_, ?_, ?_⟩
  · simp only [getPermissions, hb, Bool.false_eq_true, if_false]
    unfold rolePermsOf rolePagesOf
    rw [hrec, hperm, hpages]
    rfl
  · intro module action
    simp only [hasPermission, hb, Bool.false_eq_true, if_false, hperm]
    cases hus : u.shop with
    | none => rfl
    | some s =>
      rw [hus] at hrec
      rw [hrec]
      rfl
  · intro page
    simp only [canAccessPage, hb, Bool.false_eq_true, if_false, hpages]
    cases hus : u.shop with
    | none => rfl
    | some s =>
      rw [hus] at hrec
      rw [hrec]
      rfl

/-- Concrete override-free account in a shop with no permission
records, used to instantiate C4. -/
def exUserC4 : User :=
  { role := "optometrist", shop := some 0, permissions := [],
    accessiblePages := [] }

/-- C4 witness: the fail-closed behaviour evaluated at a concrete
account against an empty permission collection. -/
theorem claim_C4_witness :
    (exUserC4.role ≠ "admin" ∧
     findRolePermission [] exUserC4.shop exUserC4.role = none ∧
     exUserC4.permissions = [] ∧ exUserC4.accessiblePages = []) ∧
    (getPermissions [] exUserC4 =
      { permissions := [], accessiblePages := [],
        role := exUserC4.role } ∧
     (∀ module action, hasPermission [] exUserC4 module action = false) ∧
     (∀ page, canAccessPage [] exUserC4 page = false)) :=
  ⟨⟨by decide, by decide, by decide, by decide⟩,
   claim_C4_fail_closed [] exUserC4 (by decide) (by decide) (by decide)
     (by decide)⟩

/-- C5: the resolver's override merge is field-level: when the account's
override map has a (duplicate-free) entry for a module, each action flag
defined in the override replaces the role-default flag, and each action
key absent from the override keeps the role-default value. -/
theorem claim_C5_field_level_merge (db : List PermissionRecord) (u : User)
    (module action : String) (c : CapMap) (hrole : u.role ≠ "admin")
    (hnd : (u.permissions.map Prod.fst).Nodup)
    (hndc : (c.map Prod.fst).Nodup)
    (hov : getK u.permissions module = some c) :
    lookupAction (getPermissions db u).permissions module action =
      (match getK c action with
       | some b => some b
       | none => lookupAction (rolePermsOf db u) module action) := by
  have hb : (u.role == "admin") = false := by
    simp [beq_iff_eq]
    exact hrole
  simp only [getPermissions, hb, Bool.false_eq_true, if_false]
  unfold lookupAction
  rw [getK_applyOverrides_some _ _ _ _ hnd hov]
  show getK (mergeCaps ((getK (rolePermsOf db u) module).getD []) c)
    action = _
  cases hca : getK c action with
  | some b =>
    exact getK_mergeCaps_some c _ action b hndc hca
  | none =>
    rw [getK_mergeCaps_none c _ action hca]
    cases hbase : getK (rolePermsOf db u) module with
    | some caps => simp [Option.getD]
    | none => simp [Option.getD, getK]

/-- Concrete permission collection for the C5 spec example: role default
`customers: {view: true, create: false}`. -/
def exDbC5 : List PermissionRecord :=
  [{ shop := 0, role := "optometrist",
     permissions := [("customers", [("view", true), ("create", false)])],
     pageAccess := [], isActive := true, createdBy := 1 }]

/-- Concrete account for the C5 spec example: override
`customers: {create: true}`. -/
def exUserC5 : User :=
  { role := "optometrist", shop := some 0,
    permissions := [("customers", [("create", true)])],
    accessiblePages := [] }

/-- C5 witness: the field-level merge evaluated at the spec's own
example, once at the overridden `create` flag and once at the preserved
`view` flag. -/
theorem claim_C5_witness :
    (exUserC5.role ≠ "admin" ∧
     (exUserC5.permissions.map Prod.fst).Nodup ∧
     (([("create", true)] : CapMap).map Prod.fst).Nodup ∧
     getK exUserC5.permissions "customers" =
       some [("create", true)]) ∧
    lookupAction (getPermissions exDbC5 exUserC5).permissions "customers"
      "create" =
      (match getK ([("create", true)] : CapMap) "create" with
       | some b => some b
       | none => lookupAction (rolePermsOf exDbC5 exUserC5) "customers"
           "create") ∧
    lookupAction (getPermissions exDbC5 exUserC5).permissions "customers"
      "view" =
      (match getK ([("create", true)] : CapMap) "view" with
       | some b => some b
       | none => lookupAction (rolePermsOf exDbC5 exUserC5) "customers"
           "view") :=
  ⟨⟨by decide, by decide, by decide, by decide⟩,
   claim_C5_field_level_merge exDbC5 exUserC5 "customers" "create"
     [("create", true)] (by decide) (by decide) (by decide) (by decide),
   claim_C5_field_level_merge exDbC5 exUserC5 "customers" "view"
     [("create", true)] (by decide) (by decide) (by decide) (by decide)⟩

/-- C6: for a non-admin account with a non-empty `accessiblePages`
override, the resolver's accessible-pages result is the duplicate-free
union of the role-default pages and the override: membership is
disjunction of the two memberships, and the result has no duplicates. -/
theorem claim_C6_pages_union (db : List PermissionRecord) (u : User)
    (hrole : u.role ≠ "admin") (hne : u.accessiblePages ≠ []) :
    (∀ page, page ∈ (getPermissions db u).accessiblePages ↔
      (page ∈ rolePagesOf db u ∨ page ∈ u.accessiblePages)) ∧
    (getPermissions db u).accessiblePages.Nodup := by
  have hb : (u.role == "admin") = false := by
    simp [beq_iff_eq]
    exact hrole
  have hlen : u.accessiblePages.length > 0 :=
    List.length_pos.mpr hne
  have hpages : (getPermissions db u).accessiblePages =
      jsDedup (rolePagesOf db u ++ u.accessiblePages) := by
    simp only [getPermissions, hb, Bool.false_eq_true, if_false]
    rw [if_pos hlen]
  rw [hpages]
  exact ⟨fun page => by rw [mem_jsDedup]; exact List.mem_append,
    nodup_jsDedup _⟩

/-- Concrete permission collection for the C6 spec example: role default
pages `[dashboard, customers]`. -/
def exDbC6 : List PermissionRecord :=
  [{ shop := 0, role := "optometrist", permissions := [],
     pageAccess := ["dashboard", "customers"], isActive := true,
     createdBy := 1 }]

/-- Concrete account for the C6 spec example: page override
`[reports]`. -/
def exUserC6 : User :=
  { role := "optometrist", shop := some 0, permissions := [],
    accessiblePages := ["reports"] }

/-- C6 witness: the union property evaluated at the spec's own example
(`[dashboard, customers] + [reports]`). -/
theorem claim_C6_witness :
    (exUserC6.role ≠ "admin" ∧ exUserC6.accessiblePages ≠ []) ∧
    ((∀ page, page ∈ (getPermissions exDbC6 exUserC6).accessiblePages ↔
       (page ∈ rolePagesOf exDbC6 exUserC6 ∨
        page ∈ exUserC6.accessiblePages)) ∧
     (getPermissions exDbC6 exUserC6).accessiblePages.Nodup) :=
  ⟨⟨by decide, by decide⟩,
   claim_C6_pages_union exDbC6 exUserC6 (by decide) (by decide)⟩

/-- C7: after a registry Update (or Reset) for a (shop, role), the
account at any position of the user collection has both override fields
cleared when its shop and role match the updated pair, and is left
exactly as it was otherwise. -/
theorem claim_C7_override_clearing (st : St) (s : Nat) (r : String)
    (pm : PermMap) (pa : List String) (cb : Nat) (i : Nat) (u : User)
    (hu : st.users[i]? = some u) :
    (u.shop = some s → u.role = r →
      ((updateRolePermissions st s r pm pa cb).users[i]? =
        some { u with permissions := [], accessiblePages := [] } ∧
       (resetRolePermissions st s r cb).users[i]? =
        some { u with permissions := [], accessiblePages := [] })) ∧
    (¬(u.shop = some s ∧ u.role = r) →
      ((updateRolePermissions st s r pm pa cb).users[i]? = some u ∧
       (resetRolePermissions st s r cb).users[i]? = some u)) := by
  have hmap : ∀ f : User → User,
      (st.users.map f)[i]? = some (f u) := by
    intro f
    rw [List.getElem?_map, hu]
    rfl
  constructor
  · intro h1 h2
    have hcond : (u.shop == some s && u.role == r) = true := by
      simp [h1, h2]
    constructor
    · show (clearUserOverrides s r st.users)[i]? = _
      unfold clearUserOverrides
      rw [hmap]
      simp [hcond]
    · show (clearUserOverrides s r st.users)[i]? = _
      unfold clearUserOverrides
      rw [hmap]
      simp [hcond]
  · intro h
    have hcond : (u.shop == some s && u.role == r) = false := by
      apply Bool.eq_false_iff.mpr
      intro hc
      simp only [Bool.and_eq_true, beq_iff_eq] at hc
      exact h hc
    constructor
    · show (clearUserOverrides s r st.users)[i]? = _
      unfold clearUserOverrides
      rw [hmap]
      simp [hcond]
    · show (clearUserOverrides s r st.users)[i]? = _
      unfold clearUserOverrides
      rw [hmap]
      simp [hcond]

/-- Concrete assistant account carrying overrides, used to instantiate
C7. -/
def exUserC7 : User :=
  { role := "assistant", shop := some 0,
    permissions := [("customers", [("view", true)])],
    accessiblePages := ["dashboard"] }

/-- Concrete joint state for the C7 witness. -/
def exStC7 : St := { perms := [], users := [exUserC7] }

/-- C7 witness: the clearing side effect evaluated at a concrete state
whose single user matches the updated (shop, role) pair. -/
theorem claim_C7_witness :
    exStC7.users[0]? = some exUserC7 ∧
    ((exUserC7.shop = some 0 → exUserC7.role = "assistant" →
      ((updateRolePermissions exStC7 0 "assistant" [] [] 9).users[0]? =
        some { exUserC7 with
               permissions := [], accessiblePages := [] } ∧
       (resetRolePermissions exStC7 0 "assistant" 9).users[0]? =
        some { exUserC7 with
               permissions := [], accessiblePages := [] })) ∧
     (¬(exUserC7.shop = some 0 ∧ exUserC7.role = "assistant") →
      ((updateRolePermissions exStC7 0 "assistant" [] [] 9).users[0]? =
        some exUserC7 ∧
       (resetRolePermissions exStC7 0 "assistant" 9).users[0]? =
        some exUserC7))) :=
  ⟨by decide,
   claim_C7_override_clearing exStC7 0 "assistant" [] [] 9 0 exUserC7
     (by decide)⟩

/-- C8: Reset is idempotent — running it twice with the same caller
yields exactly the same state as running it once — and the stored
(shop, role) record after one Reset carries the static default table
entry for the role as its permissions map and that entry's module keys
as its `pageAccess`. -/
theorem claim_C8_reset_idempotent (st : St) (s : Nat) (r : String)
    (cb : Nat) :
    resetRolePermissions (resetRolePermissions st s r cb) s r cb =
      resetRolePermissions st s r cb ∧
    ∃ b, findShopRole (resetRolePermissions st s r cb).perms s r =
      some { shop := s, role := r,
             permissions := getDefaultPermissions r,
             pageAccess := (getDefaultPermissions r).map Prod.fst,
             isActive := b, createdBy := cb } := by
  constructor
  · unfold resetRolePermissions
    simp only [St.mk.injEq]
    exact ⟨upsertPermission_idem _ _ _ _ _ _,
      clearUserOverrides_idem _ _ _⟩
  · exact findShopRole_upsert _ _ _ _ _ _

/-- C9: initializing a shop's permissions upserts, for each of the five
roles, exactly one record carrying the static default table entry and
its keys as `pageAccess`; when the collection already respects the
unique (shop, role) index, re-running replaces records instead of
creating duplicates. -/
theorem claim_C9_initialize (db : List PermissionRecord) (s owner : Nat)
    (hU : ∀ r ∈ (["admin", "shop_owner", "optometrist", "assistant",
        "receptionist"] : List String),
      (recordsFor db s r).length ≤ 1) :
    ∀ r ∈ (["admin", "shop_owner", "optometrist", "assistant",
        "receptionist"] : List String),
      ∃ b, recordsFor (initializePermissions db s owner) s r =
        [{ shop := s, role := r,
           permissions := getDefaultPermissions r,
           pageAccess := (getDefaultPermissions r).map Prod.fst,
           isActive := b, createdBy := owner }] := by
  have hnd : (["admin", "shop_owner", "optometrist", "assistant",
      "receptionist"] : List String).Nodup := by decide
  exact recordsFor_initFold_mem _ db s owner hnd hU

/-- C9 witness: initialization evaluated against an empty permission
collection. -/
theorem claim_C9_witness :
    (∀ r ∈ (["admin", "shop_owner", "optometrist", "assistant",
        "receptionist"] : List String),
      (recordsFor [] 0 r).length ≤ 1) ∧
    (∀ r ∈ (["admin", "shop_owner", "optometrist", "assistant",
        "receptionist"] : List String),
      ∃ b, recordsFor (initializePermissions [] 0 7) 0 r =
        [{ shop := 0, role := r,
           permissions := getDefaultPermissions r,
           pageAccess := (getDefaultPermissions r).map Prod.fst,
           isActive := b, createdBy := 7 }]) :=
  ⟨by decide, claim_C9_initialize [] 0 7 (by decide)⟩

/-- C10: for every role string outside the five enumerated roles, the
static default lookup yields the assistant table — not an empty map or
an error — and a Reset invoked with such a role stores the assistant
defaults (with the assistant module keys as `pageAccess`) under it. -/
theorem claim_C10_unknown_role_fallback (role : String) (st : St)
    (s cb : Nat)
    (h : role ∉ (["admin", "shop_owner", "optometrist", "assistant",
        "receptionist"] : List String)) :
    getDefaultPermissions role = assistantDefaults ∧
    ∃ b, findShopRole (resetRolePermissions st s role cb).perms s role =
      some { shop := s, role := role,
             permissions := assistantDefaults,
             pageAccess := assistantDefaults.map Prod.fst,
             isActive := b, createdBy := cb } := by
  have hd : getDefaultPermissions role = assistantDefaults := by
    simp only [List.mem_cons, List.not_mem_nil, or_false, not_or] at h
    obtain ⟨h1, h2, h3, h4, h5⟩ := h
    simp [getDefaultPermissions, beq_iff_eq, h1, h2, h3, h4, h5]
  refine ⟨hd, ?_⟩
  have hfind := findShopRole_upsert st.perms s role
    (getDefaultPermissions role)
    ((getDefaultPermissions role).map Prod.fst) cb
  rw [hd] at hfind
  unfold resetRolePermissions
  rw [hd]
  exact hfind

/-- C10 witness: the assistant fallback evaluated at the unrecognized
role string `manager`. -/
theorem claim_C10_witness :
    ("manager" ∉ (["admin", "shop_owner", "optometrist", "assistant",
        "receptionist"] : List String)) ∧
    (getDefaultPermissions "manager" = assistantDefaults ∧
     ∃ b, findShopRole
        (resetRolePermissions { perms := [], users := [] } 0 "manager"
          3).perms 0 "manager" =
       some { shop := 0, role := "manager",
              permissions := assistantDefaults,
              pageAccess := assistantDefaults.map Prod.fst,
              isActive := b, createdBy := 3 }) :=
  ⟨by decide,
   claim_C10_unknown_role_fallback "manager" { perms := [], users := [] }
     0 3 (by decide)⟩
